import Mathlib

/-!
Verification of the Velox engine's core data structures, shallowly embedded
from the Rust sources: the SPSC ring buffer (`src/ring.rs`), the price-bucketed
order book (`src/orderbook.rs`), the bundle accumulator (`src/bundle.rs`), and
the fixed-layout transaction record (`src/types.rs`).
-/

namespace Velox

/-! ## Ring buffer (src/ring.rs)

`RingBuffer<T, N>` keeps two u64 counters `head` (incremented by `push`) and
`tail` (incremented by `pop`) and `N` storage slots.  We embed the u64 counters
as naturals reduced modulo `2^64` and the slot array as a function
`Nat → T`; a slot that was never written holds the junk value `default`
(modelling `MaybeUninit`). -/

def U64 : Nat := 2 ^ 64

structure RingBuffer (T : Type) where
  head : Nat
  tail : Nat
  slots : Nat → T

/-- `RingBuffer::new`: both counters zero, slots uninitialized (junk). -/
def RingBuffer.new (T : Type) [Inhabited T] : RingBuffer T :=
  { head := 0, tail := 0, slots := fun _ => default }

/-- u64 `a.wrapping_sub(b)` for representatives `a b < 2^64`. -/
def wsub64 (a b : Nat) : Nat := (a + (U64 - b)) % U64

/-- `RingBuffer::push` (src/ring.rs lines 61-82): fail with the value back when
`head.wrapping_sub(tail) >= N`, otherwise write slot `head & (N-1)` and
increment `head`. -/
def RingBuffer.push (N : Nat) (s : RingBuffer T) (v : T) :
    Except T Unit × RingBuffer T :=
  if N ≤ wsub64 s.head s.tail then
    (Except.error v, s)
  else
    (Except.ok (),
      { head := (s.head + 1) % U64
        tail := s.tail
        slots := fun i => if i = s.head &&& (N - 1) then v else s.slots i })

/-- `RingBuffer::pop` (src/ring.rs lines 89-110): `none` when `tail == head`,
otherwise read slot `tail & (N-1)` and increment `tail`. -/
def RingBuffer.pop (N : Nat) (s : RingBuffer T) : Option T × RingBuffer T :=
  if s.tail = s.head then
    (none, s)
  else
    (some (s.slots (s.tail &&& (N - 1))),
      { head := s.head, tail := (s.tail + 1) % U64, slots := s.slots })

/-- A sequential script of ring-buffer operations. -/
inductive RingOp (T : Type)
  | push (v : T)
  | pop

/-- Run a script; return the final state, the successfully pushed values in
order, and the popped values in order. -/
def runRing (N : Nat) : RingBuffer T → List (RingOp T) →
    RingBuffer T × List T × List T
  | s, [] => (s, [], [])
  | s, RingOp.push v :: ops =>
      match RingBuffer.push N s v with
      | (Except.ok _, s') =>
          let r := runRing N s' ops
          (r.1, v :: r.2.1, r.2.2)
      | (Except.error _, s') => runRing N s' ops
  | s, RingOp.pop :: ops =>
      match RingBuffer.pop N s with
      | (some v, s') =>
          let r := runRing N s' ops
          (r.1, r.2.1, v :: r.2.2)
      | (none, s') => runRing N s' ops

/-- The sequential ring-buffer invariant: `pushed`/`popped` are the histories
so far, the counters are their lengths modulo `2^64`, occupancy is at most
`N`, `popped` is a prefix of `pushed`, and each not-yet-popped value sits in
its slot. -/
structure RingInv (N : Nat) [Inhabited T] (s : RingBuffer T)
    (pushed popped : List T) : Prop where
  hle : popped.length ≤ pushed.length
  hcap : pushed.length - popped.length ≤ N
  hhead : s.head = pushed.length % U64
  htail : s.tail = popped.length % U64
  hpref : popped = pushed.take popped.length
  hslots : ∀ j, popped.length ≤ j → j < pushed.length →
    s.slots (j % N) = pushed.getD j default

theorem U64_pos : 0 < U64 := by norm_num [U64]

theorem N_lt_U64 {N k : Nat} (hN : N = 2 ^ k) (hk : k ≤ 63) : N < U64 := by
  subst hN
  calc 2 ^ k ≤ 2 ^ 63 := Nat.pow_le_pow_right (by norm_num) hk
    _ < U64 := by norm_num [U64]

/-- Wrapping subtraction of reduced counters recovers the true occupancy. -/
theorem wsub_mod_eq (m P Q : Nat) (hm : 0 < m) (hQP : Q ≤ P) (h : P - Q < m) :
    (P % m + (m - Q % m)) % m = P - Q := by
  have h2 := Nat.mod_add_div Q m
  have h3 : Q % m < m := Nat.mod_lt _ hm
  rw [Nat.mod_add_mod]
  have hmul : (Q / m + 1) * m = m * (Q / m) + m := by ring
  have key : P + (m - Q % m) = (P - Q) + (Q / m + 1) * m := by omega
  rw [key, Nat.add_mul_mod_self_right, Nat.mod_eq_of_lt h]

theorem wsub64_mod_eq (P Q : Nat) (hQP : Q ≤ P) (h : P - Q < U64) :
    wsub64 (P % U64) (Q % U64) = P - Q :=
  wsub_mod_eq U64 P Q U64_pos hQP h

/-- `x & (N-1)` is `x % N` for a power of two `N` (the slot-index computation). -/
theorem and_mask_eq_mod {N k : Nat} (hN : N = 2 ^ k) (x : Nat) :
    x &&& (N - 1) = x % N := by
  subst hN; exact Nat.and_pow_two_sub_one_eq_mod x k

theorem mod_U64_mod {N k : Nat} (hN : N = 2 ^ k) (hk : k ≤ 63) (x : Nat) :
    x % U64 % N = x % N :=
  Nat.mod_mod_of_dvd x (hN ▸ pow_dvd_pow 2 (le_trans hk (by norm_num)))

/-- Two in-flight positions within a window narrower than `N` occupy distinct
slots. -/
theorem window_mod_ne {N j P Q : Nat} (hQj : Q ≤ j) (hjP : j < P)
    (hocc : P - Q < N) : j % N ≠ P % N := by
  intro heq
  have hdvd : N ∣ P - j := (Nat.modEq_iff_dvd' hjP.le).mp heq
  have hpos : 0 < P - j := by omega
  have := Nat.le_of_dvd hpos hdvd
  omega

theorem RingInv.occupancy [Inhabited T] {N k : Nat} {s : RingBuffer T}
    {pushed popped : List T} (hN : N = 2 ^ k) (hk : k ≤ 63)
    (hinv : RingInv N s pushed popped) :
    wsub64 s.head s.tail = pushed.length - popped.length := by
  rw [hinv.hhead, hinv.htail]
  exact wsub64_mod_eq _ _ hinv.hle (lt_of_le_of_lt hinv.hcap (N_lt_U64 hN hk))

theorem RingInv.tail_eq_head_iff [Inhabited T] {N k : Nat} {s : RingBuffer T}
    {pushed popped : List T} (hN : N = 2 ^ k) (hk : k ≤ 63)
    (hinv : RingInv N s pushed popped) :
    s.tail = s.head ↔ popped.length = pushed.length := by
  rw [hinv.hhead, hinv.htail]
  constructor
  · intro heq
    have hdvd : U64 ∣ pushed.length - popped.length :=
      (Nat.modEq_iff_dvd' hinv.hle).mp heq
    have hlt : pushed.length - popped.length < U64 :=
      lt_of_le_of_lt hinv.hcap (N_lt_U64 hN hk)
    have hle := hinv.hle
    have hzero : pushed.length - popped.length = 0 :=
      Nat.eq_zero_of_dvd_of_lt hdvd hlt
    omega
  · intro h; rw [h]

theorem RingInv.push_inv [Inhabited T] {N k : Nat} {s : RingBuffer T}
    {pushed popped : List T} (hN : N = 2 ^ k) (hk : k ≤ 63)
    (hinv : RingInv N s pushed popped)
    (hlt : pushed.length - popped.length < N) (v : T) :
    RingInv N
      { head := (s.head + 1) % U64
        tail := s.tail
        slots := fun i => if i = s.head &&& (N - 1) then v else s.slots i }
      (pushed ++ [v]) popped := by
  have hNpos : 0 < N := hN ▸ Nat.pos_pow_of_pos k (by norm_num)
  have hmask : s.head &&& (N - 1) = pushed.length % N := by
    rw [hinv.hhead, and_mask_eq_mod hN, mod_U64_mod hN hk]
  refine ⟨?_, ?_, ?_, ?_, ?_, ?_⟩
  · simp only [List.length_append, List.length_cons, List.length_nil]
    have := hinv.hle; omega
  · simp only [List.length_append, List.length_cons, List.length_nil]
    omega
  · simp only [List.length_append, List.length_cons, List.length_nil]
    rw [hinv.hhead, Nat.mod_add_mod]
  · exact hinv.htail
  · rw [List.take_append_of_le_length hinv.hle]
    exact hinv.hpref
  · intro j hQj hjP
    simp only [List.length_append, List.length_cons, List.length_nil] at hjP
    rcases Nat.lt_succ_iff_lt_or_eq.mp (by omega : j < pushed.length + 1) with hj | hj
    · have hne : j % N ≠ pushed.length % N := window_mod_ne hQj hj hlt
      simp only [hmask, if_neg hne]
      rw [hinv.hslots j hQj hj, List.getD_append _ _ _ _ hj]
    · subst hj
      simp only [hmask, if_pos rfl]
      rw [List.getD_append_right _ _ _ _ (le_refl _)]
      simp

theorem RingInv.pop_inv [Inhabited T] {N k : Nat} {s : RingBuffer T}
    {pushed popped : List T} (hN : N = 2 ^ k) (hk : k ≤ 63)
    (hinv : RingInv N s pushed popped)
    (hlt : popped.length < pushed.length) :
    s.slots (s.tail &&& (N - 1)) = pushed.getD popped.length default ∧
    RingInv N
      { head := s.head, tail := (s.tail + 1) % U64, slots := s.slots }
      pushed (popped ++ [pushed.getD popped.length default]) := by
  have hmask : s.tail &&& (N - 1) = popped.length % N := by
    rw [hinv.htail, and_mask_eq_mod hN, mod_U64_mod hN hk]
  have hval : s.slots (s.tail &&& (N - 1)) = pushed.getD popped.length default := by
    rw [hmask]; exact hinv.hslots _ (le_refl _) hlt
  refine ⟨hval, ?_, ?_, ?_, ?_, ?_, ?_⟩
  · simp only [List.length_append, List.length_cons, List.length_nil]
    omega
  · simp only [List.length_append, List.length_cons, List.length_nil]
    have := hinv.hcap; omega
  · exact hinv.hhead
  · simp only [List.length_append, List.length_cons, List.length_nil]
    rw [hinv.htail, Nat.mod_add_mod]
  · simp only [List.length_append, List.length_cons, List.length_nil]
    rw [List.take_succ, ← hinv.hpref, List.getElem?_eq_getElem hlt]
    simp [List.getD_eq_getElem _ _ hlt, List.getElem?_eq_getElem hlt]
  · intro j hQj hjP
    simp only [List.length_append, List.length_cons, List.length_nil] at hQj
    exact hinv.hslots j (by omega) hjP

/-- Running any script preserves the invariant, extending the histories by the
values the run pushed and popped. -/
theorem runRing_inv [Inhabited T] (N k : Nat) (hN : N = 2 ^ k) (hk : k ≤ 63)
    (ops : List (RingOp T)) (s : RingBuffer T) (pushed popped : List T)
    (hinv : RingInv N s pushed popped) :
    RingInv N (runRing N s ops).1 (pushed ++ (runRing N s ops).2.1)
      (popped ++ (runRing N s ops).2.2) := by
  induction ops generalizing s pushed popped with
  | nil => simpa [runRing] using hinv
  | cons op ops ih =>
    cases op with
    | push v =>
      by_cases hfull : N ≤ wsub64 s.head s.tail
      · have hrun : runRing N s (RingOp.push v :: ops) = runRing N s ops := by
          simp [runRing, RingBuffer.push, hfull]
        rw [hrun]
        exact ih s pushed popped hinv
      · have hlt : pushed.length - popped.length < N := by
          have := hinv.occupancy hN hk; omega
        have hrun : runRing N s (RingOp.push v :: ops) =
            (let r := runRing N
              { head := (s.head + 1) % U64
                tail := s.tail
                slots := fun i => if i = s.head &&& (N - 1) then v
                  else s.slots i } ops
             (r.1, v :: r.2.1, r.2.2)) := by
          simp [runRing, RingBuffer.push, hfull]
        rw [hrun]
        have h2 := ih _ (pushed ++ [v]) popped (hinv.push_inv hN hk hlt v)
        simpa using h2
    | pop =>
      by_cases hemp : s.tail = s.head
      · have hrun : runRing N s (RingOp.pop :: ops) = runRing N s ops := by
          simp [runRing, RingBuffer.pop, hemp]
        rw [hrun]
        exact ih s pushed popped hinv
      · have hlt : popped.length < pushed.length := by
          have h := (hinv.tail_eq_head_iff hN hk).not.mp hemp
          have := hinv.hle; omega
        obtain ⟨hval, hinv'⟩ := hinv.pop_inv hN hk hlt
        have hrun : runRing N s (RingOp.pop :: ops) =
            (let r := runRing N
              { head := s.head, tail := (s.tail + 1) % U64,
                slots := s.slots } ops
             (r.1, r.2.1, s.slots (s.tail &&& (N - 1)) :: r.2.2)) := by
          simp [runRing, RingBuffer.pop, hemp]
        rw [hrun]
        have h2 := ih _ pushed (popped ++ [pushed.getD popped.length default]) hinv'
        rw [hval]
        simpa using h2

/-- The fresh ring buffer satisfies the invariant with empty histories. -/
theorem ringInv_new (T : Type) [Inhabited T] (N : Nat) :
    RingInv N (RingBuffer.new T) [] [] := by
  refine ⟨le_refl _, by simp, ?_, ?_, rfl, ?_⟩
  · simp [RingBuffer.new]
  · simp [RingBuffer.new]
  · intro j h1 h2; simp at h2

/-- C1: on a power-of-two-capacity ring buffer driven sequentially, `push`
succeeds exactly when the occupancy `head - tail` (wrapping u64 subtraction)
is below `N` and otherwise hands the value back unchanged; `pop` returns the
oldest not-yet-popped pushed value when the buffer is nonempty and `none`
otherwise; and the popped sequence is a prefix of the pushed sequence. -/
theorem ringBuffer_fifo [Inhabited T] (N k : Nat) (hN : N = 2 ^ k)
    (hk : k ≤ 63) (ops : List (RingOp T)) (s : RingBuffer T)
    (pushed popped : List T) (hs : s = (runRing N (RingBuffer.new T) ops).1)
    (hpush : pushed = (runRing N (RingBuffer.new T) ops).2.1)
    (hpop : popped = (runRing N (RingBuffer.new T) ops).2.2) :
    popped <+: pushed ∧
    wsub64 s.head s.tail = pushed.length - popped.length ∧
    (∀ v : T,
      ((RingBuffer.push N s v).1 = Except.ok () ↔
        pushed.length - popped.length < N) ∧
      (¬ pushed.length - popped.length < N →
        RingBuffer.push N s v = (Except.error v, s))) ∧
    (popped.length < pushed.length →
      (RingBuffer.pop N s).1 = some (pushed.getD popped.length default)) ∧
    (popped.length = pushed.length → (RingBuffer.pop N s).1 = none) := by
  have hinv0 := runRing_inv N k hN hk ops (RingBuffer.new T) [] []
    (ringInv_new T N)
  rw [← hs, ← hpush, ← hpop] at hinv0
  simp only [List.nil_append] at hinv0
  have hocc := hinv0.occupancy hN hk
  refine ⟨?_, hocc, ?_, ?_, ?_⟩
  · rw [hinv0.hpref]
    exact List.take_prefix _ _
  · intro v
    constructor
    · constructor
      · intro hok
        by_contra hge
        have hfull : N ≤ wsub64 s.head s.tail := by rw [hocc]; omega
        have hpush : RingBuffer.push N s v = (Except.error v, s) := by
          simp [RingBuffer.push, hfull]
        rw [hpush] at hok
        simp at hok
      · intro hlt
        have hnotfull : ¬ N ≤ wsub64 s.head s.tail := by omega
        simp [RingBuffer.push, hnotfull]
    · intro hge
      have hfull : N ≤ wsub64 s.head s.tail := by omega
      simp [RingBuffer.push, hfull]
  · intro hlt
    have hne : ¬ s.tail = s.head := by
      rw [hinv0.tail_eq_head_iff hN hk]; omega
    obtain ⟨hval, _⟩ := hinv0.pop_inv hN hk hlt
    simp [RingBuffer.pop, hne, hval]
  · intro heq
    have he : s.tail = s.head := (hinv0.tail_eq_head_iff hN hk).mpr heq
    simp [RingBuffer.pop, he]

/-- Witness for C1 at `N = 4`, script `push 10; push 20; pop`: the run pushes
`[10, 20]`, pops `[10]`, and the prefix property holds there. -/
theorem ringBuffer_fifo_witness :
    (runRing 4 (RingBuffer.new Nat)
      [RingOp.push 10, RingOp.push 20, RingOp.pop]).2.1 = [10, 20] ∧
    (runRing 4 (RingBuffer.new Nat)
      [RingOp.push 10, RingOp.push 20, RingOp.pop]).2.2 = [10] ∧
    (runRing 4 (RingBuffer.new Nat)
        [RingOp.push 10, RingOp.push 20, RingOp.pop]).2.2 <+:
      (runRing 4 (RingBuffer.new Nat)
        [RingOp.push 10, RingOp.push 20, RingOp.pop]).2.1 :=
  ⟨rfl, rfl,
    (ringBuffer_fifo 4 2 rfl (by norm_num)
      [RingOp.push 10, RingOp.push 20, RingOp.pop]
      _ _ _ rfl rfl rfl).1⟩

example : (runRing 4 (RingBuffer.new Nat)
    [RingOp.push 10, RingOp.push 20, RingOp.pop]).2.2 = [10] := by rfl

example : (runRing 2 (RingBuffer.new Nat)
    [RingOp.push 1, RingOp.push 2, RingOp.push 3]).2.1 = [1, 2] := by rfl

/-! ## Order book (src/orderbook.rs)

`OrderBook` keeps 1024 bid and 1024 ask `PriceLevel`s (an `AtomicI64` quantity
and an `AtomicU64` timestamp each) plus cached best-bid/best-ask prices.  The
sequential embedding stores the levels as functions from the level index; the
nondeterminism of `compare_exchange_weak` (spurious failure / contention) is
embedded as an explicit count `fails` of leading failed CAS attempts for each
call. -/

def LEVELS : Nat := 1024
def MAX_RETRIES : Nat := 100
def I64_MIN : Int := -(2 ^ 63)
def I64_MAX : Int := 2 ^ 63 - 1

inductive OrderBookError
  | QuantityOverflow
  | Timeout
deriving DecidableEq

structure OrderBook where
  bidQty : Nat → Int
  bidTs : Nat → Nat
  askQty : Nat → Int
  askTs : Nat → Nat
  bestBid : Int
  bestAsk : Int

/-- `OrderBook::new`: all quantities and timestamps zero, `best_bid = 0`,
`best_ask = i64::MAX`. -/
def OrderBook.new : OrderBook :=
  { bidQty := fun _ => 0
    bidTs := fun _ => 0
    askQty := fun _ => 0
    askTs := fun _ => 0
    bestBid := 0
    bestAsk := I64_MAX }

/-- `level_index(price) = ((price >> TICK_SHIFT) as usize) & LEVEL_MASK`
(src/orderbook.rs lines 100-103).  The arithmetic right shift of an `i64` by 4
is floor division by 16; `as usize` takes the two's-complement value mod
`2^64`; the mask keeps the low ten bits. -/
def OrderBook.level_index (price : Int) : Nat :=
  ((Int.fdiv price 16).emod (2 ^ 64)).toNat &&& (LEVELS - 1)

/-- The bounded CAS retry loop shared by `update_bid`/`update_ask`
(src/orderbook.rs lines 111-142): on each attempt the loaded quantity is
`current` (no other thread interferes in the sequential embedding),
`checked_add` rejects sums outside the `i64` range, and the weak CAS fails
spuriously for the first `fails` attempts. -/
def casLoop (current delta : Int) : Nat → Nat → Except OrderBookError Int
  | 0, _ => Except.error OrderBookError.Timeout
  | fuel + 1, fails =>
      let new_qty := current + delta
      if new_qty < I64_MIN ∨ I64_MAX < new_qty then
        Except.error OrderBookError.QuantityOverflow
      else
        match fails with
        | 0 => Except.ok new_qty
        | fails' + 1 => casLoop current delta fuel fails'

/-- `OrderBook::update_best_bid` (src/orderbook.rs lines 184-207),
sequentially: raise the cached best to `price` when the level is now positive,
clear it to 0 when the touched price was the cached best and is now empty. -/
def update_best_bid (ob : OrderBook) (price new_qty : Int) : Int :=
  if 0 < new_qty then
    if ob.bestBid < price then price else ob.bestBid
  else
    if price = ob.bestBid then 0 else ob.bestBid

/-- `OrderBook::update_best_ask` (src/orderbook.rs lines 210-230). -/
def update_best_ask (ob : OrderBook) (price new_qty : Int) : Int :=
  if 0 < new_qty then
    if price < ob.bestAsk then price else ob.bestAsk
  else
    if price = ob.bestAsk then I64_MAX else ob.bestAsk

/-- The successful-CAS effect of `update_bid`: store the new quantity and the
timestamp in the level, then refresh the cached best bid. -/
def OrderBook.bid_apply (ob : OrderBook) (price new_qty : Int) (ts : Nat) :
    OrderBook :=
  { ob with
    bidQty := fun i => if i = OrderBook.level_index price then new_qty
      else ob.bidQty i
    bidTs := fun i => if i = OrderBook.level_index price then ts
      else ob.bidTs i
    bestBid := update_best_bid ob price new_qty }

/-- The successful-CAS effect of `update_ask`. -/
def OrderBook.ask_apply (ob : OrderBook) (price new_qty : Int) (ts : Nat) :
    OrderBook :=
  { ob with
    askQty := fun i => if i = OrderBook.level_index price then new_qty
      else ob.askQty i
    askTs := fun i => if i = OrderBook.level_index price then ts
      else ob.askTs i
    bestAsk := update_best_ask ob price new_qty }

/-- `OrderBook::update_bid` (src/orderbook.rs lines 107-145). -/
def OrderBook.update_bid (ob : OrderBook) (price delta : Int) (ts : Nat)
    (fails : Nat) : Except OrderBookError Unit × OrderBook :=
  match casLoop (ob.bidQty (OrderBook.level_index price)) delta
      MAX_RETRIES fails with
  | Except.ok new_qty => (Except.ok (), ob.bid_apply price new_qty ts)
  | Except.error e => (Except.error e, ob)

/-- `OrderBook::update_ask` (src/orderbook.rs lines 148-181). -/
def OrderBook.update_ask (ob : OrderBook) (price delta : Int) (ts : Nat)
    (fails : Nat) : Except OrderBookError Unit × OrderBook :=
  match casLoop (ob.askQty (OrderBook.level_index price)) delta
      MAX_RETRIES fails with
  | Except.ok new_qty => (Except.ok (), ob.ask_apply price new_qty ts)
  | Except.error e => (Except.error e, ob)

/-- `OrderBook::bid_quantity` (src/orderbook.rs lines 243-246). -/
def OrderBook.bid_quantity (ob : OrderBook) (price : Int) : Int :=
  ob.bidQty (OrderBook.level_index price)

/-- `OrderBook::ask_quantity` (src/orderbook.rs lines 249-252). -/
def OrderBook.ask_quantity (ob : OrderBook) (price : Int) : Int :=
  ob.askQty (OrderBook.level_index price)

/-- A sequential script of order-book updates; `fails` is the number of
leading CAS attempts that fail for that call. -/
inductive BookOp
  | bid (price delta : Int) (ts fails : Nat)
  | ask (price delta : Int) (ts fails : Nat)

def runBook : OrderBook → List BookOp → OrderBook
  | ob, [] => ob
  | ob, BookOp.bid p d t f :: ops => runBook (ob.update_bid p d t f).2 ops
  | ob, BookOp.ask p d t f :: ops => runBook (ob.update_ask p d t f).2 ops

/-- Sum of the deltas of the successful bid updates at level `L` in a run. -/
def bidDeltaSum (L : Nat) : OrderBook → List BookOp → Int
  | _, [] => 0
  | ob, BookOp.bid p d t f :: ops =>
      match ob.update_bid p d t f with
      | (Except.ok _, ob') =>
          (if OrderBook.level_index p = L then d else 0) + bidDeltaSum L ob' ops
      | (Except.error _, ob') => bidDeltaSum L ob' ops
  | ob, BookOp.ask p d t f :: ops => bidDeltaSum L (ob.update_ask p d t f).2 ops

/-- Sum of the deltas of the successful ask updates at level `L` in a run. -/
def askDeltaSum (L : Nat) : OrderBook → List BookOp → Int
  | _, [] => 0
  | ob, BookOp.ask p d t f :: ops =>
      match ob.update_ask p d t f with
      | (Except.ok _, ob') =>
          (if OrderBook.level_index p = L then d else 0) + askDeltaSum L ob' ops
      | (Except.error _, ob') => askDeltaSum L ob' ops
  | ob, BookOp.bid p d t f :: ops => askDeltaSum L (ob.update_bid p d t f).2 ops

/-- Characterization of the CAS retry loop with positive fuel: overflow is
detected before the first CAS attempt; otherwise the call times out exactly
when all `fuel` attempts fail; otherwise it lands `current + delta`. -/
theorem casLoop_succ_spec (current delta : Int) (fuel fails : Nat) :
    casLoop current delta (fuel + 1) fails =
      (if current + delta < I64_MIN ∨ I64_MAX < current + delta then
        Except.error OrderBookError.QuantityOverflow
      else if fuel + 1 ≤ fails then Except.error OrderBookError.Timeout
      else Except.ok (current + delta)) := by
  induction fuel generalizing fails with
  | zero =>
    cases fails with
    | zero => simp [casLoop]
    | succ f =>
      by_cases hov : current + delta < I64_MIN ∨ I64_MAX < current + delta
      · simp [casLoop, hov]
      · simp [casLoop, hov]
  | succ fuel ih =>
    cases fails with
    | zero => simp [casLoop]
    | succ f =>
      by_cases hov : current + delta < I64_MIN ∨ I64_MAX < current + delta
      · simp [casLoop, hov]
      · have hstep : casLoop current delta (fuel + 1 + 1) (f + 1) =
            casLoop current delta (fuel + 1) f := by
          simp [casLoop, hov]
        rw [hstep, ih f]
        simp [hov, Nat.add_le_add_iff_right]

theorem casLoop_retries (current delta : Int) (fails : Nat) :
    casLoop current delta MAX_RETRIES fails =
      (if current + delta < I64_MIN ∨ I64_MAX < current + delta then
        Except.error OrderBookError.QuantityOverflow
      else if MAX_RETRIES ≤ fails then Except.error OrderBookError.Timeout
      else Except.ok (current + delta)) := by
  have h := casLoop_succ_spec current delta 99 fails
  norm_num [MAX_RETRIES] at h ⊢
  exact h

/-- `update_bid` as a three-way case split. -/
theorem update_bid_eq (ob : OrderBook) (price delta : Int) (ts fails : Nat) :
    ob.update_bid price delta ts fails =
      (if ob.bid_quantity price + delta < I64_MIN ∨
          I64_MAX < ob.bid_quantity price + delta then
        (Except.error OrderBookError.QuantityOverflow, ob)
      else if MAX_RETRIES ≤ fails then
        (Except.error OrderBookError.Timeout, ob)
      else
        (Except.ok (),
          ob.bid_apply price (ob.bid_quantity price + delta) ts)) := by
  rw [OrderBook.update_bid, OrderBook.bid_quantity, casLoop_retries]
  split_ifs with h1 h2 <;> rfl

/-- `update_ask` as a three-way case split. -/
theorem update_ask_eq (ob : OrderBook) (price delta : Int) (ts fails : Nat) :
    ob.update_ask price delta ts fails =
      (if ob.ask_quantity price + delta < I64_MIN ∨
          I64_MAX < ob.ask_quantity price + delta then
        (Except.error OrderBookError.QuantityOverflow, ob)
      else if MAX_RETRIES ≤ fails then
        (Except.error OrderBookError.Timeout, ob)
      else
        (Except.ok (),
          ob.ask_apply price (ob.ask_quantity price + delta) ts)) := by
  rw [OrderBook.update_ask, OrderBook.ask_quantity, casLoop_retries]
  split_ifs with h1 h2 <;> rfl

/-- C3: `update_bid`/`update_ask` fail with `QuantityOverflow` exactly when
the loaded level quantity plus `delta` leaves the signed-64-bit range, fail
with `Timeout` exactly when there is no overflow and all `MAX_RETRIES = 100`
CAS attempts fail, leave the book (in particular the level's quantity and
timestamp) unchanged on either error, and return unit on success. -/
theorem orderBook_update_error_spec (ob : OrderBook) (price delta : Int)
    (ts fails : Nat) :
    ((ob.update_bid price delta ts fails).1 =
        Except.error OrderBookError.QuantityOverflow ↔
      (ob.bid_quantity price + delta < I64_MIN ∨
        I64_MAX < ob.bid_quantity price + delta)) ∧
    ((ob.update_bid price delta ts fails).1 =
        Except.error OrderBookError.Timeout ↔
      (¬ (ob.bid_quantity price + delta < I64_MIN ∨
          I64_MAX < ob.bid_quantity price + delta) ∧ MAX_RETRIES ≤ fails)) ∧
    (∀ e, (ob.update_bid price delta ts fails).1 = Except.error e →
      (ob.update_bid price delta ts fails).2 = ob) ∧
    ((ob.update_bid price delta ts fails).1 = Except.ok () ↔
      (¬ (ob.bid_quantity price + delta < I64_MIN ∨
          I64_MAX < ob.bid_quantity price + delta) ∧ fails < MAX_RETRIES)) ∧
    ((ob.update_ask price delta ts fails).1 =
        Except.error OrderBookError.QuantityOverflow ↔
      (ob.ask_quantity price + delta < I64_MIN ∨
        I64_MAX < ob.ask_quantity price + delta)) ∧
    ((ob.update_ask price delta ts fails).1 =
        Except.error OrderBookError.Timeout ↔
      (¬ (ob.ask_quantity price + delta < I64_MIN ∨
          I64_MAX < ob.ask_quantity price + delta) ∧ MAX_RETRIES ≤ fails)) ∧
    (∀ e, (ob.update_ask price delta ts fails).1 = Except.error e →
      (ob.update_ask price delta ts fails).2 = ob) ∧
    ((ob.update_ask price delta ts fails).1 = Except.ok () ↔
      (¬ (ob.ask_quantity price + delta < I64_MIN ∨
          I64_MAX < ob.ask_quantity price + delta) ∧ fails < MAX_RETRIES)) := by
  simp only [update_bid_eq, update_ask_eq]
  split_ifs with h1 h2 h3 h4 <;> simp_all

/-- Witness for C3: on a fresh book, a bid update with `delta = 2^63`
overflows (the level holds 0) and leaves the book unchanged. -/
theorem orderBook_update_error_spec_witness :
    (OrderBook.new.update_bid 0 (2 ^ 63) 5 0).2 = OrderBook.new :=
  (orderBook_update_error_spec OrderBook.new 0 (2 ^ 63) 5 0).2.2.1
    OrderBookError.QuantityOverflow rfl

theorem update_bid_ok_qty {ob ob' : OrderBook} {price delta : Int}
    {ts fails : Nat} {u : Unit}
    (h : ob.update_bid price delta ts fails = (Except.ok u, ob')) :
    (∀ L, ob'.bidQty L = if L = OrderBook.level_index price
      then ob.bidQty L + delta else ob.bidQty L) ∧ ob'.askQty = ob.askQty := by
  rw [update_bid_eq] at h
  split_ifs at h with h1 h2
  · simp at h
  · simp at h
  · have hob : ob' = ob.bid_apply price (ob.bid_quantity price + delta) ts :=
      (Prod.ext_iff.mp h).2.symm
    subst hob
    constructor
    · intro L
      by_cases hL : L = OrderBook.level_index price
      · subst hL
        simp [OrderBook.bid_apply, OrderBook.bid_quantity]
      · simp [OrderBook.bid_apply, hL]
    · rfl

theorem update_bid_err_state {ob ob' : OrderBook} {price delta : Int}
    {ts fails : Nat} {e : OrderBookError}
    (h : ob.update_bid price delta ts fails = (Except.error e, ob')) :
    ob' = ob := by
  rw [update_bid_eq] at h
  split_ifs at h with h1 h2 <;> simp at h <;> try exact h.2.symm

theorem update_ask_ok_qty {ob ob' : OrderBook} {price delta : Int}
    {ts fails : Nat} {u : Unit}
    (h : ob.update_ask price delta ts fails = (Except.ok u, ob')) :
    (∀ L, ob'.askQty L = if L = OrderBook.level_index price
      then ob.askQty L + delta else ob.askQty L) ∧ ob'.bidQty = ob.bidQty := by
  rw [update_ask_eq] at h
  split_ifs at h with h1 h2
  · simp at h
  · simp at h
  · have hob : ob' = ob.ask_apply price (ob.ask_quantity price + delta) ts :=
      (Prod.ext_iff.mp h).2.symm
    subst hob
    constructor
    · intro L
      by_cases hL : L = OrderBook.level_index price
      · subst hL
        simp [OrderBook.ask_apply, OrderBook.ask_quantity]
      · simp [OrderBook.ask_apply, hL]
    · rfl

theorem update_ask_err_state {ob ob' : OrderBook} {price delta : Int}
    {ts fails : Nat} {e : OrderBookError}
    (h : ob.update_ask price delta ts fails = (Except.error e, ob')) :
    ob' = ob := by
  rw [update_ask_eq] at h
  split_ifs at h with h1 h2 <;> simp at h <;> try exact h.2.symm

theorem runBook_bid_sum (L : Nat) (ops : List BookOp) :
    ∀ ob : OrderBook,
      (runBook ob ops).bidQty L = ob.bidQty L + bidDeltaSum L ob ops := by
  induction ops with
  | nil => intro ob; simp [runBook, bidDeltaSum]
  | cons op ops ih =>
    intro ob
    cases op with
    | bid p d t f =>
      rcases hup : ob.update_bid p d t f with ⟨res, ob'⟩
      cases res with
      | ok u =>
        have hq := update_bid_ok_qty hup
        have hrun : runBook ob (BookOp.bid p d t f :: ops) = runBook ob' ops := by
          simp [runBook, hup]
        have hsum : bidDeltaSum L ob (BookOp.bid p d t f :: ops) =
            (if OrderBook.level_index p = L then d else 0) +
              bidDeltaSum L ob' ops := by
          simp [bidDeltaSum, hup]
        rw [hrun, hsum, ih ob', hq.1 L]
        by_cases hL : L = OrderBook.level_index p
        · simp [hL]; ring
        · simp [hL, Ne.symm hL]
      | error e =>
        have hob : ob' = ob := update_bid_err_state hup
        have hrun : runBook ob (BookOp.bid p d t f :: ops) = runBook ob ops := by
          simp [runBook, hup, hob]
        have hsum : bidDeltaSum L ob (BookOp.bid p d t f :: ops) =
            bidDeltaSum L ob ops := by
          simp [bidDeltaSum, hup, hob]
        rw [hrun, hsum, ih ob]
    | ask p d t f =>
      rcases hup : ob.update_ask p d t f with ⟨res, ob'⟩
      have hrun : runBook ob (BookOp.ask p d t f :: ops) = runBook ob' ops := by
        simp [runBook, hup]
      have hsum : bidDeltaSum L ob (BookOp.ask p d t f :: ops) =
          bidDeltaSum L ob' ops := by
        simp [bidDeltaSum, hup]
      have hbid : ob'.bidQty L = ob.bidQty L := by
        cases res with
        | ok u => rw [(update_ask_ok_qty hup).2]
        | error e => rw [update_ask_err_state hup]
      rw [hrun, hsum, ih ob', hbid]

theorem runBook_ask_sum (L : Nat) (ops : List BookOp) :
    ∀ ob : OrderBook,
      (runBook ob ops).askQty L = ob.askQty L + askDeltaSum L ob ops := by
  induction ops with
  | nil => intro ob; simp [runBook, askDeltaSum]
  | cons op ops ih =>
    intro ob
    cases op with
    | ask p d t f =>
      rcases hup : ob.update_ask p d t f with ⟨res, ob'⟩
      cases res with
      | ok u =>
        have hq := update_ask_ok_qty hup
        have hrun : runBook ob (BookOp.ask p d t f :: ops) = runBook ob' ops := by
          simp [runBook, hup]
        have hsum : askDeltaSum L ob (BookOp.ask p d t f :: ops) =
            (if OrderBook.level_index p = L then d else 0) +
              askDeltaSum L ob' ops := by
          simp [askDeltaSum, hup]
        rw [hrun, hsum, ih ob', hq.1 L]
        by_cases hL : L = OrderBook.level_index p
        · simp [hL]; ring
        · simp [hL, Ne.symm hL]
      | error e =>
        have hob : ob' = ob := update_ask_err_state hup
        have hrun : runBook ob (BookOp.ask p d t f :: ops) = runBook ob ops := by
          simp [runBook, hup, hob]
        have hsum : askDeltaSum L ob (BookOp.ask p d t f :: ops) =
            askDeltaSum L ob ops := by
          simp [askDeltaSum, hup, hob]
        rw [hrun, hsum, ih ob]
    | bid p d t f =>
      rcases hup : ob.update_bid p d t f with ⟨res, ob'⟩
      have hrun : runBook ob (BookOp.bid p d t f :: ops) = runBook ob' ops := by
        simp [runBook, hup]
      have hsum : askDeltaSum L ob (BookOp.bid p d t f :: ops) =
          askDeltaSum L ob' ops := by
        simp [askDeltaSum, hup]
      have hask : ob'.askQty L = ob.askQty L := by
        cases res with
        | ok u => rw [(update_bid_ok_qty hup).2]
        | error e => rw [update_bid_err_state hup]
      rw [hrun, hsum, ih ob', hask]

/-- C2: on a fresh order book, after any script of updates, the quantity read
through `bid_quantity`/`ask_quantity` at any price equals the algebraic sum of
the deltas of exactly the successful updates of that side whose price maps to
the same `level_index` bucket; failed updates contribute nothing. -/
theorem orderBook_level_sum (ops : List BookOp) (price : Int) :
    (runBook OrderBook.new ops).bid_quantity price =
      bidDeltaSum (OrderBook.level_index price) OrderBook.new ops ∧
    (runBook OrderBook.new ops).ask_quantity price =
      askDeltaSum (OrderBook.level_index price) OrderBook.new ops := by
  constructor
  · have h := runBook_bid_sum (OrderBook.level_index price) ops OrderBook.new
    simpa [OrderBook.bid_quantity, OrderBook.new] using h
  · have h := runBook_ask_sum (OrderBook.level_index price) ops OrderBook.new
    simpa [OrderBook.ask_quantity, OrderBook.new] using h

example : OrderBook.level_index 0 = 0 := by rfl
example : OrderBook.level_index 15 = 0 := by rfl
example : OrderBook.level_index 16 = 1 := by rfl
example : OrderBook.level_index 32 = 2 := by rfl
example : (OrderBook.new.update_bid 1000 100 123 0).1 = Except.ok () := by rfl
example : ((OrderBook.new.update_bid 1000 100 123 0).2.bid_quantity 1000)
    = 100 := by rfl

/-! ## Transaction record (src/types.rs)

`Transaction` is a `repr(C)` 32-byte record: `id: u64` (offset 0), `price:
i64` (offset 8), `size: u32` (offset 16), `side: u8` (offset 20), three
padding bytes (offsets 21-23), `ingress_ts_ns: u64` (offset 24), all fields
little-endian on the target platforms.  `to_bytes` memcpys the record;
`from_bytes` memcpys it back. -/

structure Transaction where
  id : Nat
  price : Int
  size : Nat
  side : Nat
  padding1 : Nat × Nat × Nat
  ingress_ts_ns : Nat
deriving DecidableEq

instance : Inhabited Transaction :=
  ⟨{ id := 0, price := 1, size := 1, side := 0, padding1 := (0, 0, 0),
     ingress_ts_ns := 0 }⟩

/-- The machine representation constraint: each field holds a value of its
declared width (this is what "every 32-byte record" ranges over). -/
def Transaction.Wf (t : Transaction) : Prop :=
  t.id < 2 ^ 64 ∧ I64_MIN ≤ t.price ∧ t.price ≤ I64_MAX ∧ t.size < 2 ^ 32 ∧
  t.side < 2 ^ 8 ∧ t.padding1.1 < 2 ^ 8 ∧ t.padding1.2.1 < 2 ^ 8 ∧
  t.padding1.2.2 < 2 ^ 8 ∧ t.ingress_ts_ns < 2 ^ 64

instance (t : Transaction) : Decidable t.Wf := by
  unfold Transaction.Wf
  infer_instance

/-- Little-endian byte encoding of a `w`-byte unsigned value. -/
def natToLE : Nat → Nat → List Nat
  | 0, _ => []
  | w + 1, x => x % 256 :: natToLE w (x / 256)

/-- Little-endian byte decoding. -/
def leToNat : List Nat → Nat
  | [] => 0
  | b :: bs => b + 256 * leToNat bs

/-- Two's-complement `u64` bit pattern of an `i64` value. -/
def i64ToU64 (x : Int) : Nat := (x % (2 ^ 64 : Int)).toNat

/-- Reading a `u64` bit pattern back as an `i64`. -/
def u64ToI64 (n : Nat) : Int :=
  if n < 2 ^ 63 then (n : Int) else (n : Int) - 2 ^ 64

/-- `Transaction::to_bytes` (src/types.rs lines 82-92): the 32 bytes of the
record in layout order. -/
def Transaction.to_bytes (t : Transaction) : List Nat :=
  natToLE 8 t.id ++ natToLE 8 (i64ToU64 t.price) ++ natToLE 4 t.size ++
    natToLE 1 t.side ++
    (natToLE 1 t.padding1.1 ++ natToLE 1 t.padding1.2.1 ++
      natToLE 1 t.padding1.2.2) ++
    natToLE 8 t.ingress_ts_ns

/-- `Transaction::from_bytes` (src/types.rs lines 95-105): reassemble the
record from its 32 bytes, reading each field at its layout offset (`id` at 0,
`price` at 8, `size` at 16, `side` at 20, padding at 21-23, `ingress_ts_ns`
at 24).  A list that is not 32 bytes long has no Rust counterpart. -/
def Transaction.from_bytes : List Nat → Transaction
  | [b0, b1, b2, b3, b4, b5, b6, b7,
     c0, c1, c2, c3, c4, c5, c6, c7,
     s0, s1, s2, s3, sd, p0, p1, p2,
     g0, g1, g2, g3, g4, g5, g6, g7] =>
      { id := leToNat [b0, b1, b2, b3, b4, b5, b6, b7]
        price := u64ToI64 (leToNat [c0, c1, c2, c3, c4, c5, c6, c7])
        size := leToNat [s0, s1, s2, s3]
        side := sd
        padding1 := (p0, p1, p2)
        ingress_ts_ns := leToNat [g0, g1, g2, g3, g4, g5, g6, g7] }
  | _ => default

theorem natToLE_length (w x : Nat) : (natToLE w x).length = w := by
  induction w generalizing x with
  | zero => rfl
  | succ w ih => simp [natToLE, ih]

theorem leToNat_natToLE (w x : Nat) : leToNat (natToLE w x) = x % 256 ^ w := by
  induction w generalizing x with
  | zero => simp [natToLE, leToNat, Nat.mod_one]
  | succ w ih =>
    rw [natToLE, leToNat, ih]
    rw [pow_succ, mul_comm (256 ^ w) 256, Nat.mod_mul]

theorem i64_roundtrip (x : Int) (h1 : I64_MIN ≤ x) (h2 : x ≤ I64_MAX) :
    u64ToI64 (i64ToU64 x) = x := by
  unfold u64ToI64 i64ToU64
  simp only [I64_MIN] at h1
  simp only [I64_MAX] at h2
  have hnn : 0 ≤ x % (2 ^ 64 : Int) := Int.emod_nonneg x (by norm_num)
  have htn : ((x % (2 ^ 64 : Int)).toNat : Int) = x % (2 ^ 64 : Int) :=
    Int.toNat_of_nonneg hnn
  generalize hn : (x % (2 ^ 64 : Int)).toNat = n at htn ⊢
  split_ifs with h <;> omega

theorem i64ToU64_lt (x : Int) : i64ToU64 x < 2 ^ 64 := by
  unfold i64ToU64
  have h0 : 0 ≤ x % (2 ^ 64 : Int) := Int.emod_nonneg x (by norm_num)
  have h1 : x % (2 ^ 64 : Int) < 2 ^ 64 :=
    Int.emod_lt_of_pos x (by norm_num)
  omega

/-- C5: deserializing the serialization of any 32-byte transaction record is
the identity on all fields, the padding bytes included. -/
theorem transaction_roundtrip (t : Transaction) (h : t.Wf) :
    Transaction.from_bytes (Transaction.to_bytes t) = t := by
  obtain ⟨tid, tprice, tsize, tside, ⟨pa, pb, pc⟩, ting⟩ := t
  obtain ⟨hid, hp1, hp2, hsize, hside, hpa, hpb, hpc, hing⟩ := h
  have hnorm : Transaction.from_bytes (Transaction.to_bytes
      ⟨tid, tprice, tsize, tside, (pa, pb, pc), ting⟩) =
      ⟨leToNat (natToLE 8 tid),
       u64ToI64 (leToNat (natToLE 8 (i64ToU64 tprice))),
       leToNat (natToLE 4 tsize),
       tside % 256,
       (pa % 256, pb % 256, pc % 256),
       leToNat (natToLE 8 ting)⟩ := rfl
  rw [hnorm]
  have h64 : (256 : Nat) ^ 8 = 2 ^ 64 := by norm_num
  have h32 : (256 : Nat) ^ 4 = 2 ^ 32 := by norm_num
  simp only [Transaction.mk.injEq, leToNat_natToLE, h64, h32, Prod.mk.injEq]
  refine ⟨?_, ?_, ?_, ?_, ⟨?_, ?_, ?_⟩, ?_⟩
  · exact Nat.mod_eq_of_lt hid
  · rw [Nat.mod_eq_of_lt (i64ToU64_lt tprice)]
    exact i64_roundtrip tprice hp1 hp2
  · exact Nat.mod_eq_of_lt hsize
  · exact Nat.mod_eq_of_lt hside
  · exact Nat.mod_eq_of_lt hpa
  · exact Nat.mod_eq_of_lt hpb
  · exact Nat.mod_eq_of_lt hpc
  · exact Nat.mod_eq_of_lt hing

/-- Witness for C5 at the record `(id 123, price 1000000, size 50, side bid,
zero padding, ingress 1234567890)`. -/
theorem transaction_roundtrip_witness :
    Transaction.Wf
      { id := 123, price := 1000000, size := 50, side := 0,
        padding1 := (0, 0, 0), ingress_ts_ns := 1234567890 } ∧
    Transaction.from_bytes (Transaction.to_bytes
      { id := 123, price := 1000000, size := 50, side := 0,
        padding1 := (0, 0, 0), ingress_ts_ns := 1234567890 }) =
      { id := 123, price := 1000000, size := 50, side := 0,
        padding1 := (0, 0, 0), ingress_ts_ns := 1234567890 } :=
  ⟨by norm_num [Transaction.Wf, I64_MIN, I64_MAX],
   transaction_roundtrip _ (by norm_num [Transaction.Wf, I64_MIN, I64_MAX])⟩

/-! ## Bundle accumulator (src/bundle.rs)

`BundleBuilder` owns a 16-slot transaction buffer, a `count`, and the TSC
timestamp of the bundle's first transaction.  `rdtsc()` readings and the
outcome of the elapsed-time comparison in `should_flush_timeout` are
environment inputs: each operation carries the reading `now` and each `add`
carries the boolean outcome `timeoutNow`; the TSC-to-nanoseconds calibration
`tsc_to_ns` is an abstract parameter `tscToNs`. -/

def BUNDLE_MAX : Nat := 16

structure Bundle where
  transactions : Nat → Transaction
  count : Nat
  timestamp_ns : Nat

instance : Inhabited Bundle :=
  ⟨{ transactions := fun _ => default, count := 0, timestamp_ns := 0 }⟩

inductive BundleFull
  | mk
deriving DecidableEq

structure BundleBuilder where
  buffer : Nat → Transaction
  count : Nat
  start_tsc : Nat

/-- `BundleBuilder::new` (src/bundle.rs lines 24-30). -/
def BundleBuilder.new (now : Nat) : BundleBuilder :=
  { buffer := fun _ => default, count := 0, start_tsc := now }

/-- `BundleBuilder::flush` (src/bundle.rs lines 75-95): an empty builder
flushes nothing; otherwise build the bundle from the buffer and count, push it
to the output ring (capacity 1024), and only on a successful push reset the
builder.  The fourth component records the bundles actually pushed. -/
def BundleBuilder.flush (b : BundleBuilder) (tscToNs : Nat → Nat)
    (ring : RingBuffer Bundle) (now : Nat) :
    Except BundleFull Unit × BundleBuilder × RingBuffer Bundle × List Bundle :=
  if b.count = 0 then (Except.ok (), b, ring, [])
  else
    let bundle : Bundle :=
      { transactions := b.buffer, count := b.count,
        timestamp_ns := tscToNs b.start_tsc }
    match RingBuffer.push 1024 ring bundle with
    | (Except.ok _, ring') =>
        (Except.ok (), { b with count := 0, start_tsc := now }, ring',
          [bundle])
    | (Except.error _, ring') => (Except.error BundleFull.mk, b, ring', [])

/-- The append step of `BundleBuilder::add` (src/bundle.rs lines 46-53):
reset the open timestamp when the buffer is empty, write the transaction at
index `count`, and increment `count`. -/
def BundleBuilder.write_slot (b : BundleBuilder) (txn : Transaction)
    (now : Nat) : BundleBuilder :=
  let b1 := if b.count = 0 then { b with start_tsc := now } else b
  { b1 with
    buffer := fun i => if i = b1.count then txn else b1.buffer i
    count := b1.count + 1 }

/-- The tail of `BundleBuilder::add` after the possible pre-flush
(src/bundle.rs lines 46-60): append, then flush immediately when now full. -/
def BundleBuilder.add_rest (b : BundleBuilder) (tscToNs : Nat → Nat)
    (txn : Transaction) (ring : RingBuffer Bundle) (now : Nat) :
    Except BundleFull Unit × BundleBuilder × RingBuffer Bundle × List Bundle :=
  let b2 := b.write_slot txn now
  if BUNDLE_MAX ≤ b2.count then b2.flush tscToNs ring now
  else (Except.ok (), b2, ring, [])

/-- `BundleBuilder::add` (src/bundle.rs lines 36-61): pre-flush when the
buffer is full or when nonempty and timed out (a failed pre-flush propagates
`BundleFull` and adds nothing), then append. -/
def BundleBuilder.add (b : BundleBuilder) (tscToNs : Nat → Nat)
    (txn : Transaction) (ring : RingBuffer Bundle) (timeoutNow : Bool)
    (now : Nat) :
    Except BundleFull Unit × BundleBuilder × RingBuffer Bundle × List Bundle :=
  if BUNDLE_MAX ≤ b.count ∨ (0 < b.count ∧ timeoutNow) then
    match b.flush tscToNs ring now with
    | (Except.ok _, b', ring', out) =>
        let r := b'.add_rest tscToNs txn ring' now
        (r.1, r.2.1, r.2.2.1, out ++ r.2.2.2)
    | (Except.error e, b', ring', out) => (Except.error e, b', ring', out)
  else b.add_rest tscToNs txn ring now

/-- `BundleBuilder::force_flush` (src/bundle.rs lines 98-100): delegates to
`flush`. -/
def BundleBuilder.force_flush (b : BundleBuilder) (tscToNs : Nat → Nat)
    (ring : RingBuffer Bundle) (now : Nat) :
    Except BundleFull Unit × BundleBuilder × RingBuffer Bundle × List Bundle :=
  b.flush tscToNs ring now

/-- A script of builder operations with their environment inputs. -/
inductive BundleOp
  | add (txn : Transaction) (timeoutNow : Bool) (now : Nat)
  | flush (now : Nat)
  | force_flush (now : Nat)

/-- Run a script; return the final builder and ring, and the list of bundles
pushed to the output queue, in order. -/
def runBundle (tscToNs : Nat → Nat) :
    BundleBuilder → RingBuffer Bundle → List BundleOp →
    BundleBuilder × RingBuffer Bundle × List Bundle
  | b, ring, [] => (b, ring, [])
  | b, ring, BundleOp.add txn timeoutNow now :: ops =>
      let r := b.add tscToNs txn ring timeoutNow now
      let rest := runBundle tscToNs r.2.1 r.2.2.1 ops
      (rest.1, rest.2.1, r.2.2.2 ++ rest.2.2)
  | b, ring, BundleOp.flush now :: ops =>
      let r := b.flush tscToNs ring now
      let rest := runBundle tscToNs r.2.1 r.2.2.1 ops
      (rest.1, rest.2.1, r.2.2.2 ++ rest.2.2)
  | b, ring, BundleOp.force_flush now :: ops =>
      let r := b.force_flush tscToNs ring now
      let rest := runBundle tscToNs r.2.1 r.2.2.1 ops
      (rest.1, rest.2.1, r.2.2.2 ++ rest.2.2)

/-- Case analysis of `flush`: no-op on an empty builder, reset-and-emit on a
successful push, unchanged builder and no emission on a full output ring. -/
theorem flush_cases (b : BundleBuilder) (tscToNs : Nat → Nat)
    (ring : RingBuffer Bundle) (now : Nat) :
    (b.count = 0 ∧ b.flush tscToNs ring now = (Except.ok (), b, ring, [])) ∨
    (0 < b.count ∧ ∃ ring2,
      b.flush tscToNs ring now =
        (Except.ok (), { b with count := 0, start_tsc := now }, ring2,
          [{ transactions := b.buffer, count := b.count,
             timestamp_ns := tscToNs b.start_tsc }])) ∨
    (0 < b.count ∧ ∃ ring2,
      b.flush tscToNs ring now =
        (Except.error BundleFull.mk, b, ring2, [])) := by
  unfold BundleBuilder.flush
  by_cases h0 : b.count = 0
  · left
    exact ⟨h0, by simp [h0]⟩
  · rcases hp : RingBuffer.push 1024 ring
      { transactions := b.buffer, count := b.count,
        timestamp_ns := tscToNs b.start_tsc } with ⟨res, ring2⟩
    cases res with
    | ok u =>
      right; left
      exact ⟨Nat.pos_of_ne_zero h0, ring2, by simp [h0, hp]⟩
    | error e =>
      right; right
      exact ⟨Nat.pos_of_ne_zero h0, ring2, by simp [h0, hp]⟩

/-- Builder-count bound and emitted-count bounds through one `flush`. -/
theorem flush_spec_op (b : BundleBuilder) (tscToNs : Nat → Nat)
    (ring : RingBuffer Bundle) (now : Nat) (hb : b.count ≤ BUNDLE_MAX) :
    (b.flush tscToNs ring now).2.1.count ≤ BUNDLE_MAX ∧
    ∀ bd ∈ (b.flush tscToNs ring now).2.2.2,
      1 ≤ bd.count ∧ bd.count ≤ BUNDLE_MAX := by
  rcases flush_cases b tscToNs ring now with
    ⟨h0, heq⟩ | ⟨hpos, ring2, heq⟩ | ⟨hpos, ring2, heq⟩ <;> rw [heq]
  · exact ⟨hb, by simp⟩
  · refine ⟨by simp, ?_⟩
    intro bd hbd
    simp at hbd
    rw [hbd]
    exact ⟨hpos, hb⟩
  · exact ⟨hb, by simp⟩

theorem write_slot_count (b : BundleBuilder) (txn : Transaction) (now : Nat) :
    (b.write_slot txn now).count = b.count + 1 := by
  unfold BundleBuilder.write_slot
  by_cases h : b.count = 0 <;> simp [h]

/-- Builder-count bound and emitted-count bounds through `add_rest`. -/
theorem add_rest_spec (b : BundleBuilder) (tscToNs : Nat → Nat)
    (txn : Transaction) (ring : RingBuffer Bundle) (now : Nat)
    (hb : b.count < BUNDLE_MAX) :
    (b.add_rest tscToNs txn ring now).2.1.count ≤ BUNDLE_MAX ∧
    ∀ bd ∈ (b.add_rest tscToNs txn ring now).2.2.2,
      1 ≤ bd.count ∧ bd.count ≤ BUNDLE_MAX := by
  unfold BundleBuilder.add_rest
  have hc2 : (b.write_slot txn now).count = b.count + 1 :=
    write_slot_count b txn now
  by_cases hfull : BUNDLE_MAX ≤ (b.write_slot txn now).count
  · rw [if_pos hfull]
    exact flush_spec_op _ tscToNs ring now (by omega)
  · rw [if_neg hfull]
    refine ⟨?_, by simp⟩
    show (b.write_slot txn now).count ≤ BUNDLE_MAX
    omega

/-- Builder-count bound and emitted-count bounds through one `add`. -/
theorem add_spec (b : BundleBuilder) (tscToNs : Nat → Nat)
    (txn : Transaction) (ring : RingBuffer Bundle) (timeoutNow : Bool)
    (now : Nat) (hb : b.count ≤ BUNDLE_MAX) :
    (b.add tscToNs txn ring timeoutNow now).2.1.count ≤ BUNDLE_MAX ∧
    ∀ bd ∈ (b.add tscToNs txn ring timeoutNow now).2.2.2,
      1 ≤ bd.count ∧ bd.count ≤ BUNDLE_MAX := by
  unfold BundleBuilder.add
  by_cases hc : BUNDLE_MAX ≤ b.count ∨ (0 < b.count ∧ timeoutNow) <;>
    [rw [if_pos hc]; rw [if_neg hc]]
  · rcases flush_cases b tscToNs ring now with
      ⟨h0, heq⟩ | ⟨hpos, ring2, heq⟩ | ⟨hpos, ring2, heq⟩ <;> rw [heq]
    · have hrest := add_rest_spec b tscToNs txn ring now
        (by rw [h0]; norm_num [BUNDLE_MAX])
      refine ⟨hrest.1, ?_⟩
      intro bd hbd
      simp at hbd
      exact hrest.2 bd hbd
    · have hrest := add_rest_spec { b with count := 0, start_tsc := now }
        tscToNs txn ring2 now (by simp [BUNDLE_MAX])
      refine ⟨hrest.1, ?_⟩
      intro bd hbd
      simp at hbd
      rcases hbd with hbd | hbd
      · rw [hbd]
        exact ⟨hpos, hb⟩
      · exact hrest.2 bd hbd
    · exact ⟨hb, by simp⟩
  · push_neg at hc
    exact add_rest_spec b tscToNs txn ring now hc.1

/-- The run-level invariant: starting from a builder within capacity, the
final builder is within capacity and every emitted bundle has count in
`[1, BUNDLE_MAX]`. -/
theorem runBundle_inv (tscToNs : Nat → Nat) (ops : List BundleOp) :
    ∀ (b : BundleBuilder) (ring : RingBuffer Bundle), b.count ≤ BUNDLE_MAX →
      (runBundle tscToNs b ring ops).1.count ≤ BUNDLE_MAX ∧
      ∀ bd ∈ (runBundle tscToNs b ring ops).2.2,
        1 ≤ bd.count ∧ bd.count ≤ BUNDLE_MAX := by
  induction ops with
  | nil =>
    intro b ring hb
    exact ⟨hb, by simp [runBundle]⟩
  | cons op ops ih =>
    intro b ring hb
    cases op with
    | add txn timeoutNow now =>
      have hstep := add_spec b tscToNs txn ring timeoutNow now hb
      have hrest := ih (b.add tscToNs txn ring timeoutNow now).2.1
        (b.add tscToNs txn ring timeoutNow now).2.2.1 hstep.1
      refine ⟨hrest.1, ?_⟩
      intro bd hbd
      simp only [runBundle, List.mem_append] at hbd
      rcases hbd with hbd | hbd
      · exact hstep.2 bd hbd
      · exact hrest.2 bd hbd
    | flush now =>
      have hstep := flush_spec_op b tscToNs ring now hb
      have hrest := ih (b.flush tscToNs ring now).2.1
        (b.flush tscToNs ring now).2.2.1 hstep.1
      refine ⟨hrest.1, ?_⟩
      intro bd hbd
      simp only [runBundle, List.mem_append] at hbd
      rcases hbd with hbd | hbd
      · exact hstep.2 bd hbd
      · exact hrest.2 bd hbd
    | force_flush now =>
      have hstep := flush_spec_op b tscToNs ring now hb
      have hrest := ih (b.flush tscToNs ring now).2.1
        (b.flush tscToNs ring now).2.2.1 hstep.1
      refine ⟨hrest.1, ?_⟩
      intro bd hbd
      simp only [runBundle, BundleBuilder.force_flush, List.mem_append] at hbd
      rcases hbd with hbd | hbd
      · exact hstep.2 bd hbd
      · exact hrest.2 bd hbd

/-- C4: across every script of `add`/`flush`/`force_flush` operations from a
fresh builder and an empty output queue, the builder's count stays in
`[0, 16]`, and every bundle actually pushed to the output queue has count in
`[1, 16]` (flushing an empty builder pushes nothing). -/
theorem bundleBuilder_count_invariant (tscToNs : Nat → Nat) (now0 : Nat)
    (ops : List BundleOp) :
    (runBundle tscToNs (BundleBuilder.new now0)
      (RingBuffer.new Bundle) ops).1.count ≤ BUNDLE_MAX ∧
    ∀ bd ∈ (runBundle tscToNs (BundleBuilder.new now0)
        (RingBuffer.new Bundle) ops).2.2,
      1 ≤ bd.count ∧ bd.count ≤ BUNDLE_MAX :=
  runBundle_inv tscToNs ops (BundleBuilder.new now0) (RingBuffer.new Bundle)
    (by simp [BundleBuilder.new, BUNDLE_MAX])

/-- Witness for C4: the script `add txn; force_flush` pushes exactly one
bundle, and the theorem instance bounds its count. -/
theorem bundleBuilder_count_invariant_witness :
    1 ≤ ((runBundle (fun t => t) (BundleBuilder.new 0) (RingBuffer.new Bundle)
        [BundleOp.add default false 0, BundleOp.force_flush 0]).2.2.get
        ⟨0, by decide⟩).count ∧
    ((runBundle (fun t => t) (BundleBuilder.new 0) (RingBuffer.new Bundle)
        [BundleOp.add default false 0, BundleOp.force_flush 0]).2.2.get
        ⟨0, by decide⟩).count ≤ BUNDLE_MAX :=
  (bundleBuilder_count_invariant (fun t => t) 0
      [BundleOp.add default false 0, BundleOp.force_flush 0]).2 _
    (List.get_mem _ _ _)

end Velox
